import Mathlib

/-!
Verification of the resumable batch-processing / checkpoint logic of the
Shopify product-description updater scripts.

The development shallowly embeds the Python sources:
  * `openai_enhanced_updater.py` — `OpenAIEnhancedUpdater.read_csv`,
    `save_progress`, `load_progress`, `update_product_descriptions`,
    `write_updated_csv`, `generate_openai_description`, `reset_progress`;
  * `extract_next_10_products.py` — `extract_next_10_products`;
  * `fix_and_extract.py` — `fix_progress_and_extract`.

CSV rows are association lists of column name to cell text (mirroring
`csv.DictReader` rows); the pickle checkpoint file is a token stream, with a
partial (crashed) write modelled as a prefix of the stream; the external
OpenAI/Reddit text generation and the HTML text-cleanup regexes are
out-of-scope external collaborators and enter the model as opaque function
parameters, exactly as the driver code treats them.
-/

namespace ShopifyUpd

/-- Python `str.strip()`: remove leading and trailing whitespace.
(Executable model of the `.strip()` calls in the sources; `String.trim`
does not reduce in the kernel, so we strip on the underlying char list.) -/
def strip (s : String) : String :=
  ⟨((s.data.dropWhile Char.isWhitespace).reverse.dropWhile Char.isWhitespace).reverse⟩

/-- A CSV row as produced by `csv.DictReader`: column name ↦ cell text. -/
def Row := List (String × String)
deriving DecidableEq

/-- Python `row.get(col, '')`: first binding for the column, defaulting to `""`. -/
def rowGet (row : Row) (col : String) : String :=
  (List.lookup col row).getD ""

/-- `handle = row.get('Handle', '').strip()` (from `read_csv` and the scripts). -/
def rowHandle (row : Row) : String := strip (rowGet row "Handle")

/-- `title = row.get('Title', '').strip()`. -/
def rowTitle (row : Row) : String := strip (rowGet row "Title")

/-- `body_html = row.get('Body (HTML)', '').strip()`. -/
def rowBody (row : Row) : String := strip (rowGet row "Body (HTML)")

/-- The common field test of all the scripts:
`if title and body_html and handle` / `if handle and title and body_html` —
all three of handle, title, description non-empty after stripping. -/
def fieldQual (row : Row) : Prop :=
  rowTitle row ≠ "" ∧ rowBody row ≠ "" ∧ rowHandle row ≠ ""

instance (row : Row) : Decidable (fieldQual row) := by
  unfold fieldQual; infer_instance

/-- The `Product` dataclass of `openai_enhanced_updater.py`. -/
structure Product where
  handle : String
  title : String
  body_html : String
  vendor : String
  product_category : String
  price : String
  compare_at_price : String
  inventory_qty : String
  image_src : String
  sku : String
  tags : String
  top_notes : String
  middle_notes : String
  base_notes : String
  longevity : String
  sillage : String
  season : String
  occasion : String
  gtin : String
  weight : String
  height : String
  width : String
  depth : String
  synonyms : String
deriving DecidableEq

/-- The `Product(...)` construction in `read_csv` (lines 138-163): handle,
title and body use the stripped values; all other columns are passed through
`row.get(col, '')` un-stripped. -/
def mkProduct (row : Row) : Product where
  handle := rowHandle row
  title := rowTitle row
  body_html := rowBody row
  vendor := rowGet row "Vendor"
  product_category := rowGet row "Product Category"
  price := rowGet row "Variant Price"
  compare_at_price := rowGet row "Variant Compare At Price"
  inventory_qty := rowGet row "Variant Inventory Qty"
  image_src := rowGet row "Image Src"
  sku := rowGet row "Variant SKU"
  tags := rowGet row "Tags"
  top_notes := rowGet row "Top Notes (product.metafields.custom.top_notes)"
  middle_notes := rowGet row "Middle Notes (product.metafields.custom.middle_notes)"
  base_notes := rowGet row "Base Notes (product.metafields.custom.base_notes)"
  longevity := rowGet row "Longevity"
  sillage := rowGet row "Sillage"
  season := rowGet row "Season (product.metafields.shopify.season)"
  occasion := rowGet row "Occasion (product.metafields.shopify.occasion)"
  gtin := rowGet row "GTIN"
  weight := rowGet row "Weight"
  height := rowGet row "Height"
  width := rowGet row "Width"
  depth := rowGet row "Depth"
  synonyms := rowGet row "Synonyms"

/-- Python `set.add`: `processed_handles.add(handle)` (membership-faithful;
the source set is unordered, we keep insertion order). -/
def setAdd (l : List String) (h : String) : List String :=
  if h ∈ l then l else l ++ [h]

/-- `OpenAIEnhancedUpdater.read_csv` (lines 127-166): stream the rows; a row
with non-empty (stripped) title, body and handle whose handle is not in
`processed_handles` appends `mkProduct row` to `self.products` and adds the
handle to `self.processed_handles`. Returns the final
`(self.products, self.processed_handles)` pair. -/
def read_csv : List Row → List String → List Product × List String
  | [], processed => ([], processed)
  | row :: rows, processed =>
    if fieldQual row ∧ rowHandle row ∉ processed then
      let rest := read_csv rows (setAdd processed (rowHandle row))
      (mkProduct row :: rest.1, rest.2)
    else
      read_csv rows processed

/-- Python dict assignment `d[k] = v`: overwrite the first binding in place
if the key is present, else append (insertion-ordered dict). -/
def dictInsert : List (String × String) → String → String → List (String × String)
  | [], k, v => [(k, v)]
  | (k', v') :: rest, k, v =>
    if k' = k then (k, v) :: rest else (k', v') :: dictInsert rest k v

/-- The in-memory checkpoint state: `self.updated_products` (handle ↦
generated HTML, an insertion-ordered dict) and `self.processed_handles`
(a set of handles). -/
structure CheckpointData where
  updated_products : List (String × String)
  processed_handles : List String
deriving DecidableEq

/-- The empty checkpoint state (fresh `OpenAIEnhancedUpdater` fields). -/
def emptyCheckpoint : CheckpointData := ⟨[], []⟩

/-- One token of the serialized checkpoint stream (the pickle blob is a flat
stream of primitive values; a crashed write truncates the stream). -/
inductive Tok where
  | num : Nat → Tok
  | str : String → Tok
deriving DecidableEq

/-- Body of the serialized checkpoint: the `updated_products` dict as a
count followed by alternating key/value tokens, then the
`processed_handles` list as a count followed by its elements. -/
def encodeBody (d : CheckpointData) : List Tok :=
  Tok.num d.updated_products.length ::
    d.updated_products.flatMap (fun kv => [Tok.str kv.1, Tok.str kv.2]) ++
    (Tok.num d.processed_handles.length :: d.processed_handles.map Tok.str)

/-- `pickle.dump(progress_data, f)`: the serialized checkpoint blob.  The
stream is length-prefixed, so a truncated (partially written) blob is
detectably malformed — mirroring that an incomplete pickle fails to load. -/
def serializeCheckpoint (d : CheckpointData) : List Tok :=
  Tok.num (encodeBody d).length :: encodeBody d

/-- Decode `n` key/value pairs from the stream. -/
def decodePairs : Nat → List Tok → Option (List (String × String) × List Tok)
  | 0, ts => some ([], ts)
  | n + 1, Tok.str k :: Tok.str v :: ts =>
    (decodePairs n ts).map (fun r => ((k, v) :: r.1, r.2))
  | _ + 1, _ => none

/-- Decode `n` strings from the stream. -/
def decodeStrs : Nat → List Tok → Option (List String × List Tok)
  | 0, ts => some ([], ts)
  | n + 1, Tok.str s :: ts =>
    (decodeStrs n ts).map (fun r => (s :: r.1, r.2))
  | _ + 1, _ => none

/-- Decode the two structures of a checkpoint blob body. -/
def parseBody : List Tok → Option CheckpointData
  | Tok.num m :: ts =>
    match decodePairs m ts with
    | some (pairs, Tok.num p :: ts') =>
      match decodeStrs p ts' with
      | some (handles, []) => some ⟨pairs, handles⟩
      | _ => none
    | _ => none
  | _ => none

/-- `pickle.load(f)`: parse a checkpoint blob; any malformed or truncated
stream yields `none` (the unpickling exception). -/
def parseCheckpoint : List Tok → Option CheckpointData
  | Tok.num n :: rest => if rest.length = n then parseBody rest else none
  | _ => none

/-- The world a script touches: the in-memory checkpoint fields plus the
durable progress file (`none` when the file does not exist). -/
structure World where
  mem : CheckpointData
  file : Option (List Tok)
deriving DecidableEq

/-- `OpenAIEnhancedUpdater.save_progress` (lines 84-95): overwrite the
progress file in place with the serialized full state. -/
def save_progress (w : World) : World :=
  { w with file := some (serializeCheckpoint w.mem) }

/-- The in-memory effect of recording a completion in
`update_product_descriptions` (lines 561-562):
`self.updated_products[product.handle] = optimized_html;`
`self.processed_handles.add(product.handle)`. -/
def recordMem (k v : String) (d : CheckpointData) : CheckpointData :=
  ⟨dictInsert d.updated_products k v, setAdd d.processed_handles k⟩

/-- Record a completion and immediately persist (lines 561-565: the two
mutations followed by `self.save_progress()`). -/
def record (k v : String) (w : World) : World :=
  save_progress { w with mem := recordMem k v w.mem }

/-- `OpenAIEnhancedUpdater.load_progress` (lines 97-116): absent file or any
unpickling failure leaves the freshly initialized empty fields; a good file
restores both dict and set. -/
def load_progress (file : Option (List Tok)) : CheckpointData :=
  match file with
  | none => emptyCheckpoint
  | some ts =>
    match parseCheckpoint ts with
    | some d => d
    | none => emptyCheckpoint

/-- A crash while `save_progress` is overwriting the progress file: `open(f,
'wb')` truncates the old content first, so the durable file is some prefix
of the new serialized blob (`i` tokens made it to disk). -/
def crashedFile (d : CheckpointData) (i : Nat) : Option (List Tok) :=
  some ((serializeCheckpoint d).take i)

/-- The repair step of `fix_progress_and_extract` (lines 34-41):
`fixed_processed_handles = set(updated_products.keys());`
`progress_data['processed_handles'] = list(fixed_processed_handles)` —
the completed dict is untouched. -/
def fix_progress (d : CheckpointData) : CheckpointData :=
  { d with processed_handles := d.updated_products.map Prod.fst }

/-- The whole repair pass of `fix_progress_and_extract` on the durable file
(lines 23-50): no file → nothing to fix (script proceeds fresh without
writing); a loadable file → fix and dump back; an unreadable file →
`pickle.load` raises and the script dies (`none`). -/
def fix_progress_run (w : World) : Option World :=
  match w.file with
  | none => some w
  | some ts =>
    match parseCheckpoint ts with
    | some d => some ⟨fix_progress d, some (serializeCheckpoint (fix_progress d))⟩
    | none => none

/-- `OpenAIEnhancedUpdater.reset_progress` (lines 804-814): delete the
progress file and clear the in-memory state. -/
def reset_progress (_w : World) : World :=
  ⟨emptyCheckpoint, none⟩

/-- `OpenAIEnhancedUpdater.generate_openai_description` (lines 288-452):
build prompts and call the OpenAI API; on success the response content is
passed through `clean_html_content`, and on any exception the method
returns `generate_fallback_description(product)` instead of raising.  The
API call (`apiCall`, `none` = downstream fault), the text-cleanup regexes
(`cleanHtml`) and the fallback HTML template (`fallback`) are the external
content-generation collaborators the spec scopes out (spec §1, §6); only
the success/failure routing is this component's logic. -/
def generate_openai_description (apiCall : Product → Option String)
    (cleanHtml : String → String) (fallback : Product → String)
    (product : Product) : String :=
  match apiCall product with
  | some content => cleanHtml content
  | none => fallback product

/-- The limit computation of `update_product_descriptions` (lines 526-536):
`already_processed = len(self.updated_products);`
`remaining_limit = self.max_products - already_processed;`
`if remaining_limit <= 0: return` (no candidates);
`products_to_process = self.products[:remaining_limit]`;
with no `max_products`, all products are processed. -/
def products_to_process (d : CheckpointData) (max_products : Option Nat)
    (products : List Product) : List Product :=
  match max_products with
  | none => products
  | some m =>
    if m ≤ d.updated_products.length then []
    else products.take (m - d.updated_products.length)

/-- The per-candidate loop of `update_product_descriptions` (lines 538-573):
skip a candidate already in `updated_products` (lines 542-544), otherwise
generate, record into the dict and set, and save progress before moving on
(lines 560-565). -/
def update_loop (gen : Product → String) : List Product → World → World
  | [], w => w
  | p :: ps, w =>
    if (List.lookup p.handle w.mem.updated_products).isSome then
      update_loop gen ps w
    else
      update_loop gen ps (record p.handle (gen p) w)

/-- The sub-sequence of candidates actually handed to the generation step by
`update_loop` (the ones not skipped by the lines 542-544 double-check
against the evolving `updated_products` dict). -/
def update_loop_handed (gen : Product → String) :
    List Product → List (String × String) → List Product
  | [], _ => []
  | p :: ps, d =>
    if (List.lookup p.handle d).isSome then
      update_loop_handed gen ps d
    else
      p :: update_loop_handed gen ps (dictInsert d p.handle (gen p))

/-- `OpenAIEnhancedUpdater.update_product_descriptions` (lines 521-575) as a
whole: compute the limited slice and run the loop. -/
def update_product_descriptions (gen : Product → String)
    (max_products : Option Nat) (products : List Product) (w : World) : World :=
  update_loop gen (products_to_process w.mem max_products products) w

/-- The candidates handed to the generation step by a full run: `read_csv`
filters with the checkpoint's processed set, the driver slices by the
remaining limit, and the loop skips handles already completed. -/
def handed_batch (d : CheckpointData) (max_products : Option Nat)
    (gen : Product → String) (rows : List Row) : List Product :=
  update_loop_handed gen
    (products_to_process d max_products (read_csv rows d.processed_handles).1)
    d.updated_products

/-- Python dict assignment `row['Body (HTML)'] = v` on a `DictReader` row:
overwrite the binding in place (append if the column were absent). -/
def setCol : Row → String → String → Row
  | [], k, v => [(k, v)]
  | (k', v') :: rest, k, v =>
    if k' = k then (k, v) :: rest else (k', v') :: setCol rest k v

/-- The per-row body of `write_updated_csv` (lines 588-595): a row whose
stripped handle is a key of `updated_products` *and* whose stripped title
and body are non-empty gets
`row['Body (HTML)'] = self.updated_products[handle]`; every other row is
written back unchanged. -/
def write_row (updated : List (String × String)) (row : Row) : Row :=
  match List.lookup (rowHandle row) updated with
  | some v =>
    if rowTitle row ≠ "" ∧ rowBody row ≠ "" then
      setCol row "Body (HTML)" v
    else row
  | none => row

/-- `OpenAIEnhancedUpdater.write_updated_csv` (lines 577-596): re-stream the
input rows in order, applying `write_row` to each. -/
def write_updated_csv (updated : List (String × String)) (rows : List Row) : List Row :=
  rows.map (write_row updated)

/-- The scan loop of `extract_next_10_products` (lines 44-61; identical in
`fix_progress_and_extract` lines 63-80): for each row with all three fields
non-empty, add it to `unique_products` when its handle is new and
unprocessed, append the row to `all_rows`, and `break` as soon as 10 unique
products are collected.  Rows missing a field are skipped entirely. -/
def extendUnique (processed : List String) (uniq : List (String × Row))
    (row : Row) : List (String × Row) :=
  if rowHandle row ∉ uniq.map Prod.fst ∧ rowHandle row ∉ processed then
    uniq ++ [(rowHandle row, row)]
  else uniq

def extract_loop (processed : List String) :
    List Row → List (String × Row) → List Row → List (String × Row) × List Row
  | [], uniq, allRows => (uniq, allRows)
  | row :: rows, uniq, allRows =>
    if fieldQual row then
      if 10 ≤ (extendUnique processed uniq row).length then
        (extendUnique processed uniq row, allRows ++ [row])
      else
        extract_loop processed rows (extendUnique processed uniq row) (allRows ++ [row])
    else
      extract_loop processed rows uniq allRows

/-- The output rows of `extract_next_10_products` (lines 67-74): the scanned
`all_rows` filtered to handles of the selected unique products. -/
def extract_output (processed : List String) (rows : List Row) : List Row :=
  let scanned := extract_loop processed rows [] []
  scanned.2.filter (fun row => decide (rowHandle row ∈ scanned.1.map Prod.fst))

/-- `read_csv` acting on the whole in-memory checkpoint state: the method
reads `self.processed_handles` and writes back into it, and never touches
`self.updated_products`. -/
def read_csv_session (d : CheckpointData) (rows : List Row) :
    CheckpointData × List Product :=
  let r := read_csv rows d.processed_handles
  (⟨d.updated_products, r.2⟩, r.1)

/-- A sample catalog row with the three required columns and a vendor. -/
def rowOf (h t b : String) : Row :=
  [("Handle", h), ("Title", t), ("Body (HTML)", b), ("Vendor", "V")]

/-- The four-row catalog with handles `[a, c, b, d]` used by the
candidate-batch scenario. -/
def acbdRows : List Row :=
  [rowOf "a" "ta" "ba", rowOf "c" "tc" "bc", rowOf "b" "tb" "bb", rowOf "d" "td" "bd"]

/-- Nine qualifying catalog rows with distinct handles. -/
def nineRows : List Row :=
  [rowOf "h1" "t1" "b1", rowOf "h2" "t2" "b2", rowOf "h3" "t3" "b3",
   rowOf "h4" "t4" "b4", rowOf "h5" "t5" "b5", rowOf "h6" "t6" "b6",
   rowOf "h7" "t7" "b7", rowOf "h8" "t8" "b8", rowOf "h9" "t9" "b9"]

/-- Ten qualifying catalog rows with distinct handles. -/
def tenRows : List Row :=
  nineRows ++ [rowOf "h10" "t10" "b10"]

section DictLemmas

theorem mem_setAdd {l : List String} {h a : String} :
    a ∈ setAdd l h ↔ a ∈ l ∨ a = h := by
  unfold setAdd
  split <;> rename_i hmem
  · constructor
    · exact fun hx => Or.inl hx
    · rintro (hx | rfl) <;> [exact hx; exact hmem]
  · simp [List.mem_append]

theorem setAdd_subset {l : List String} {h : String} : l ⊆ setAdd l h := by
  intro a ha
  exact mem_setAdd.mpr (Or.inl ha)

theorem mem_setAdd_self {l : List String} {h : String} : h ∈ setAdd l h :=
  mem_setAdd.mpr (Or.inr rfl)

theorem setAdd_idem (l : List String) (h : String) :
    setAdd (setAdd l h) h = setAdd l h := by
  have hmem : h ∈ setAdd l h := mem_setAdd_self
  have hstep : setAdd (setAdd l h) h
      = if h ∈ setAdd l h then setAdd l h else setAdd l h ++ [h] := rfl
  rw [hstep, if_pos hmem]

theorem lookup_cons_self (l : List (String × String)) (k v : String) :
    List.lookup k ((k, v) :: l) = some v := by
  simp [List.lookup]

theorem lookup_cons_ne (l : List (String × String)) (k k' v : String)
    (h : k ≠ k') : List.lookup k ((k', v) :: l) = List.lookup k l := by
  have hb : (k == k') = false := by simp [h]
  simp [List.lookup, hb]

theorem lookup_dictInsert_self (l : List (String × String)) (k v : String) :
    List.lookup k (dictInsert l k v) = some v := by
  induction l with
  | nil => simp [dictInsert, List.lookup]
  | cons kv rest ih =>
    obtain ⟨k', v'⟩ := kv
    by_cases hk : k' = k
    · subst hk
      simp [dictInsert, List.lookup]
    · rw [dictInsert, if_neg hk, lookup_cons_ne _ _ _ _ (fun hx => hk hx.symm), ih]

theorem lookup_dictInsert_ne (l : List (String × String)) (k v k' : String)
    (h : k' ≠ k) : List.lookup k' (dictInsert l k v) = List.lookup k' l := by
  induction l with
  | nil =>
    show List.lookup k' [(k, v)] = List.lookup k' []
    rw [lookup_cons_ne _ _ _ _ h]
  | cons kv rest ih =>
    obtain ⟨k₀, v₀⟩ := kv
    by_cases hk : k₀ = k
    · subst hk
      rw [dictInsert, if_pos rfl, lookup_cons_ne _ _ _ _ h]
      rw [lookup_cons_ne _ _ _ _ h]
    · rw [dictInsert, if_neg hk]
      by_cases hk' : k' = k₀
      · subst hk'
        rw [lookup_cons_self, lookup_cons_self]
      · rw [lookup_cons_ne _ _ _ _ hk', lookup_cons_ne _ _ _ _ hk', ih]

theorem dictInsert_dictInsert (l : List (String × String)) (k v₁ v₂ : String) :
    dictInsert (dictInsert l k v₁) k v₂ = dictInsert l k v₂ := by
  induction l with
  | nil => simp [dictInsert]
  | cons kv rest ih =>
    obtain ⟨k', v'⟩ := kv
    by_cases hk : k' = k
    · subst hk
      simp [dictInsert]
    · simp [dictInsert, if_neg hk, ih]

theorem lookup_isSome_iff_mem_keys (l : List (String × String)) (k : String) :
    (List.lookup k l).isSome = true ↔ k ∈ l.map Prod.fst := by
  induction l with
  | nil => simp [List.lookup]
  | cons kv rest ih =>
    obtain ⟨k', v'⟩ := kv
    by_cases hk : k = k'
    · subst hk
      simp [lookup_cons_self]
    · rw [lookup_cons_ne _ _ _ _ hk]
      simp [ih, hk]

theorem setCol_eq_dictInsert (r : Row) (k v : String) :
    setCol r k v = dictInsert r k v := by
  induction r with
  | nil => rfl
  | cons kv rest ih =>
    obtain ⟨k', v'⟩ := kv
    by_cases hk : k' = k
    · simp [setCol, dictInsert, hk]
    · simp [setCol, dictInsert, hk, ih]

theorem dictInsert_map_fst_of_mem (l : List (String × String)) (k v : String)
    (hmem : k ∈ l.map Prod.fst) :
    (dictInsert l k v).map Prod.fst = l.map Prod.fst := by
  induction l with
  | nil => simp at hmem
  | cons kv rest ih =>
    obtain ⟨k', v'⟩ := kv
    by_cases hk : k' = k
    · simp [dictInsert, hk]
    · have : k ∈ rest.map Prod.fst := by
        rcases List.mem_cons.mp hmem with h | h
        · exact absurd h.symm hk
        · exact h
      simp [dictInsert, hk, ih this]

theorem rowGet_ne_empty_mem_keys (r : Row) (c : String)
    (h : strip (rowGet r c) ≠ "") : c ∈ r.map Prod.fst := by
  rw [← lookup_isSome_iff_mem_keys]
  cases hl : List.lookup c r with
  | none =>
    exfalso
    apply h
    rw [rowGet, hl]
    rfl
  | some v => rfl

end DictLemmas

section SerializationLemmas

theorem decodePairs_encode (l : List (String × String)) (rest : List Tok) :
    decodePairs l.length
      (l.flatMap (fun kv => [Tok.str kv.1, Tok.str kv.2]) ++ rest)
      = some (l, rest) := by
  induction l with
  | nil => simp [decodePairs]
  | cons kv t ih =>
    obtain ⟨k, v⟩ := kv
    have hcons : ((k, v) :: t).flatMap (fun kv => [Tok.str kv.1, Tok.str kv.2]) ++ rest
        = Tok.str k :: Tok.str v ::
          (t.flatMap (fun kv => [Tok.str kv.1, Tok.str kv.2]) ++ rest) := rfl
    rw [List.length_cons, hcons]
    have hstep : decodePairs (t.length + 1)
        (Tok.str k :: Tok.str v ::
          (t.flatMap (fun kv => [Tok.str kv.1, Tok.str kv.2]) ++ rest))
        = (decodePairs t.length
            (t.flatMap (fun kv => [Tok.str kv.1, Tok.str kv.2]) ++ rest)).map
            (fun r => ((k, v) :: r.1, r.2)) := rfl
    rw [hstep, ih]
    rfl

theorem decodeStrs_encode (l : List String) (rest : List Tok) :
    decodeStrs l.length (l.map Tok.str ++ rest) = some (l, rest) := by
  induction l with
  | nil => simp [decodeStrs]
  | cons s t ih =>
    simp [decodeStrs, ih]

theorem parseBody_encodeBody (d : CheckpointData) :
    parseBody (encodeBody d) = some d := by
  obtain ⟨u, p⟩ := d
  have henc : encodeBody ⟨u, p⟩
      = Tok.num u.length ::
        (u.flatMap (fun kv => [Tok.str kv.1, Tok.str kv.2])
          ++ (Tok.num p.length :: p.map Tok.str)) := by
    simp [encodeBody]
  rw [henc, parseBody]
  rw [decodePairs_encode u (Tok.num p.length :: p.map Tok.str)]
  have hstr : decodeStrs p.length (p.map Tok.str) = some (p, []) := by
    have := decodeStrs_encode p []
    simpa using this
  simp [hstr]

theorem parse_serialize (d : CheckpointData) :
    parseCheckpoint (serializeCheckpoint d) = some d := by
  rw [serializeCheckpoint, parseCheckpoint]
  rw [if_pos rfl, parseBody_encodeBody]

theorem parse_serialize_take_lt (d : CheckpointData) (i : Nat)
    (h : i < (serializeCheckpoint d).length) :
    parseCheckpoint ((serializeCheckpoint d).take i) = none := by
  match i with
  | 0 => rfl
  | j + 1 =>
    have hser : serializeCheckpoint d = Tok.num (encodeBody d).length :: encodeBody d := rfl
    rw [hser, List.take_cons (Nat.succ_pos j), parseCheckpoint]
    simp only [Nat.succ_sub_one]
    have hlen : ((encodeBody d).take j).length = j := by
      rw [List.length_take]
      have : j < (encodeBody d).length := by
        rw [hser] at h
        simpa [Nat.succ_lt_succ_iff] using h
      exact Nat.min_eq_left (Nat.le_of_lt this)
    have hne : ((encodeBody d).take j).length ≠ (encodeBody d).length := by
      rw [hlen]
      have : j < (encodeBody d).length := by
        rw [hser] at h
        simpa [Nat.succ_lt_succ_iff] using h
      exact Nat.ne_of_lt this
    rw [if_neg hne]

/-- `save_progress` then `load_progress` round-trips the full state. -/
theorem load_after_save (w : World) :
    load_progress (save_progress w).file = w.mem := by
  simp [save_progress, load_progress, parse_serialize]

end SerializationLemmas

section ReadCsvLemmas

theorem read_csv_cons_pos (row : Row) (rows : List Row) (pr : List String)
    (h : fieldQual row ∧ rowHandle row ∉ pr) :
    read_csv (row :: rows) pr
      = (mkProduct row :: (read_csv rows (setAdd pr (rowHandle row))).1,
         (read_csv rows (setAdd pr (rowHandle row))).2) := by
  simp only [read_csv]
  rw [if_pos h]

theorem read_csv_cons_neg (row : Row) (rows : List Row) (pr : List String)
    (h : ¬(fieldQual row ∧ rowHandle row ∉ pr)) :
    read_csv (row :: rows) pr = read_csv rows pr := by
  simp only [read_csv]
  rw [if_neg h]

theorem read_csv_append (p q : List Row) (pr : List String) :
    read_csv (p ++ q) pr
      = ((read_csv p pr).1 ++ (read_csv q (read_csv p pr).2).1,
         (read_csv q (read_csv p pr).2).2) := by
  induction p generalizing pr with
  | nil => simp [read_csv]
  | cons row rows ih =>
    by_cases h : fieldQual row ∧ rowHandle row ∉ pr
    · rw [List.cons_append, read_csv_cons_pos _ _ _ h, read_csv_cons_pos _ _ _ h, ih]
      simp
    · rw [List.cons_append, read_csv_cons_neg _ _ _ h, read_csv_cons_neg _ _ _ h, ih]

theorem read_csv_handle_notin (rows : List Row) (pr : List String)
    (prod : Product) (hmem : prod ∈ (read_csv rows pr).1) : prod.handle ∉ pr := by
  induction rows generalizing pr with
  | nil => simp [read_csv] at hmem
  | cons row rest ih =>
    by_cases h : fieldQual row ∧ rowHandle row ∉ pr
    · rw [read_csv_cons_pos _ _ _ h] at hmem
      rcases List.mem_cons.mp hmem with heq | htail
      · subst heq
        exact h.2
      · intro hin
        exact ih (setAdd pr (rowHandle row)) htail (setAdd_subset hin)
    · rw [read_csv_cons_neg _ _ _ h] at hmem
      exact ih pr hmem

theorem read_csv_handles_nodup (rows : List Row) (pr : List String) :
    ((read_csv rows pr).1.map Product.handle).Nodup := by
  induction rows generalizing pr with
  | nil => simp [read_csv]
  | cons row rest ih =>
    by_cases h : fieldQual row ∧ rowHandle row ∉ pr
    · rw [read_csv_cons_pos _ _ _ h]
      simp only [List.map_cons, List.nodup_cons]
      refine ⟨?_, ih (setAdd pr (rowHandle row))⟩
      intro hin
      rcases List.mem_map.mp hin with ⟨prod, hprod, heq⟩
      have := read_csv_handle_notin _ _ _ hprod
      rw [heq] at this
      exact this mem_setAdd_self
    · rw [read_csv_cons_neg _ _ _ h]
      exact ih pr

theorem read_csv_mem_processed (rows : List Row) (pr : List String) (x : String) :
    x ∈ (read_csv rows pr).2
      ↔ x ∈ pr ∨ x ∈ (read_csv rows pr).1.map Product.handle := by
  induction rows generalizing pr with
  | nil => simp [read_csv]
  | cons row rest ih =>
    by_cases h : fieldQual row ∧ rowHandle row ∉ pr
    · rw [read_csv_cons_pos _ _ _ h]
      simp only [List.map_cons, List.mem_cons]
      rw [ih (setAdd pr (rowHandle row))]
      rw [mem_setAdd]
      have : (mkProduct row).handle = rowHandle row := rfl
      rw [this]
      tauto
    · rw [read_csv_cons_neg _ _ _ h]
      exact ih pr

theorem read_csv_first_qualifying (rows : List Row) (pr : List String)
    (prod : Product) (hmem : prod ∈ (read_csv rows pr).1) :
    ∃ pre row post, rows = pre ++ row :: post ∧ fieldQual row ∧
      rowHandle row ∉ pr ∧ prod = mkProduct row ∧
      ∀ r' ∈ pre, rowHandle r' = rowHandle row → ¬ fieldQual r' := by
  induction rows generalizing pr with
  | nil => simp [read_csv] at hmem
  | cons row₀ rest ih =>
    by_cases h : fieldQual row₀ ∧ rowHandle row₀ ∉ pr
    · rw [read_csv_cons_pos _ _ _ h] at hmem
      rcases List.mem_cons.mp hmem with heq | htail
      · exact ⟨[], row₀, rest, rfl, h.1, h.2, heq, by simp⟩
      · obtain ⟨pre, row, post, hdec, hq, hnp, hmk, hfirst⟩ :=
          ih (setAdd pr (rowHandle row₀)) htail
        refine ⟨row₀ :: pre, row, post, by simp [hdec], hq,
          fun hin => hnp (setAdd_subset hin), hmk, ?_⟩
        intro r' hr' hhand
        rcases List.mem_cons.mp hr' with rfl | hpre
        · intro _
          apply hnp
          rw [← hhand]
          exact mem_setAdd_self
        · exact hfirst r' hpre hhand
    · rw [read_csv_cons_neg _ _ _ h] at hmem
      obtain ⟨pre, row, post, hdec, hq, hnp, hmk, hfirst⟩ := ih pr hmem
      refine ⟨row₀ :: pre, row, post, by simp [hdec], hq, hnp, hmk, ?_⟩
      intro r' hr' hhand
      rcases List.mem_cons.mp hr' with rfl | hpre
      · intro hq₀
        apply h
        refine ⟨hq₀, ?_⟩
        rw [hhand]
        exact hnp
      · exact hfirst r' hpre hhand

end ReadCsvLemmas

section ExtractLemmas

theorem extract_loop_cons_break (pr : List String) (row : Row) (rows : List Row)
    (u : List (String × Row)) (a : List Row) (hq : fieldQual row)
    (hbr : 10 ≤ (extendUnique pr u row).length) :
    extract_loop pr (row :: rows) u a = (extendUnique pr u row, a ++ [row]) := by
  simp only [extract_loop]
  rw [if_pos hq, if_pos hbr]

theorem extract_loop_cons_cont (pr : List String) (row : Row) (rows : List Row)
    (u : List (String × Row)) (a : List Row) (hq : fieldQual row)
    (hbr : ¬ 10 ≤ (extendUnique pr u row).length) :
    extract_loop pr (row :: rows) u a
      = extract_loop pr rows (extendUnique pr u row) (a ++ [row]) := by
  simp only [extract_loop]
  rw [if_pos hq, if_neg hbr]

theorem extract_loop_cons_nq (pr : List String) (row : Row) (rows : List Row)
    (u : List (String × Row)) (a : List Row) (hq : ¬ fieldQual row) :
    extract_loop pr (row :: rows) u a = extract_loop pr rows u a := by
  simp only [extract_loop]
  rw [if_neg hq]

theorem extendUnique_append (pr : List String) (u : List (String × Row)) (row : Row) :
    ∃ t, extendUnique pr u row = u ++ t := by
  unfold extendUnique
  split
  · exact ⟨[(rowHandle row, row)], rfl⟩
  · exact ⟨[], (List.append_nil u).symm⟩

theorem extract_loop_uniq_append (pr : List String) (rows : List Row)
    (u : List (String × Row)) (a : List Row) :
    ∃ t, (extract_loop pr rows u a).1 = u ++ t := by
  induction rows generalizing u a with
  | nil => exact ⟨[], (List.append_nil u).symm⟩
  | cons row rest ih =>
    by_cases hq : fieldQual row
    · by_cases hbr : 10 ≤ (extendUnique pr u row).length
      · rw [extract_loop_cons_break pr row rest u a hq hbr]
        exact extendUnique_append pr u row
      · rw [extract_loop_cons_cont pr row rest u a hq hbr]
        obtain ⟨s, hs⟩ := extendUnique_append pr u row
        obtain ⟨t, ht⟩ := ih (extendUnique pr u row) (a ++ [row])
        exact ⟨s ++ t, by rw [ht, hs, List.append_assoc]⟩
    · rw [extract_loop_cons_nq pr row rest u a hq]
      exact ih u a

theorem extract_loop_all_append (pr : List String) (rows : List Row)
    (u : List (String × Row)) (a : List Row) :
    ∃ t, (extract_loop pr rows u a).2 = a ++ t := by
  induction rows generalizing u a with
  | nil => exact ⟨[], (List.append_nil a).symm⟩
  | cons row rest ih =>
    by_cases hq : fieldQual row
    · by_cases hbr : 10 ≤ (extendUnique pr u row).length
      · rw [extract_loop_cons_break pr row rest u a hq hbr]
        exact ⟨[row], rfl⟩
      · rw [extract_loop_cons_cont pr row rest u a hq hbr]
        obtain ⟨t, ht⟩ := ih (extendUnique pr u row) (a ++ [row])
        exact ⟨row :: t, by rw [ht, List.append_assoc]; rfl⟩
    · rw [extract_loop_cons_nq pr row rest u a hq]
      exact ih u a

theorem extract_loop_uniq_le (pr : List String) (rows : List Row)
    (u : List (String × Row)) (a : List Row) :
    u.length ≤ (extract_loop pr rows u a).1.length := by
  obtain ⟨t, ht⟩ := extract_loop_uniq_append pr rows u a
  rw [ht, List.length_append]
  exact Nat.le_add_right _ _

/-- Once the scan of a prefix has hit the 10-unique break, appending more
source rows does not change the scan result at all. -/
theorem extract_loop_break_suffix (pr : List String) (p q : List Row)
    (u : List (String × Row)) (a : List Row) (hu : u.length < 10)
    (hbreak : 10 ≤ (extract_loop pr p u a).1.length) :
    extract_loop pr (p ++ q) u a = extract_loop pr p u a := by
  induction p generalizing u a with
  | nil =>
    simp only [extract_loop] at hbreak
    exact absurd hbreak (Nat.not_le_of_lt hu)
  | cons row rest ih =>
    by_cases hq : fieldQual row
    · by_cases hbr : 10 ≤ (extendUnique pr u row).length
      · rw [List.cons_append, extract_loop_cons_break pr row (rest ++ q) u a hq hbr,
          extract_loop_cons_break pr row rest u a hq hbr]
      · rw [List.cons_append, extract_loop_cons_cont pr row (rest ++ q) u a hq hbr]
        rw [extract_loop_cons_cont pr row rest u a hq hbr] at hbreak ⊢
        exact ih (extendUnique pr u row) (a ++ [row]) (Nat.lt_of_not_le hbr) hbreak
    · rw [List.cons_append, extract_loop_cons_nq pr row (rest ++ q) u a hq]
      rw [extract_loop_cons_nq pr row rest u a hq] at hbreak ⊢
      exact ih u a hu hbreak

/-- If the scan of a prefix never hit the break, scanning the concatenation
continues from the prefix scan's accumulators. -/
theorem extract_loop_no_break_append (pr : List String) (p q : List Row)
    (u : List (String × Row)) (a : List Row)
    (hno : (extract_loop pr p u a).1.length < 10) :
    extract_loop pr (p ++ q) u a
      = extract_loop pr q (extract_loop pr p u a).1 (extract_loop pr p u a).2 := by
  induction p generalizing u a with
  | nil => simp [extract_loop]
  | cons row rest ih =>
    by_cases hq : fieldQual row
    · by_cases hbr : 10 ≤ (extendUnique pr u row).length
      · rw [extract_loop_cons_break pr row rest u a hq hbr] at hno
        exact absurd hbr (Nat.not_le_of_lt hno)
      · rw [List.cons_append, extract_loop_cons_cont pr row (rest ++ q) u a hq hbr]
        rw [extract_loop_cons_cont pr row rest u a hq hbr] at hno ⊢
        exact ih (extendUnique pr u row) (a ++ [row]) hno
    · rw [List.cons_append, extract_loop_cons_nq pr row (rest ++ q) u a hq]
      rw [extract_loop_cons_nq pr row rest u a hq] at hno ⊢
      exact ih u a hno

/-- If the scan consumed the whole prefix (never hit the break), every
field-qualifying row of the prefix was appended to `all_rows`. -/
theorem extract_loop_all_mem (pr : List String) (p : List Row)
    (u : List (String × Row)) (a : List Row)
    (hno : (extract_loop pr p u a).1.length < 10) :
    ∀ row ∈ p, fieldQual row → row ∈ (extract_loop pr p u a).2 := by
  induction p generalizing u a with
  | nil =>
    intro row hrow
    simp at hrow
  | cons row₀ rest ih =>
    intro row hrow hqrow
    by_cases hq : fieldQual row₀
    · by_cases hbr : 10 ≤ (extendUnique pr u row₀).length
      · rw [extract_loop_cons_break pr row₀ rest u a hq hbr] at hno
        exact absurd hbr (Nat.not_le_of_lt hno)
      · rw [extract_loop_cons_cont pr row₀ rest u a hq hbr] at hno ⊢
        rcases List.mem_cons.mp hrow with rfl | hrest
        · obtain ⟨t, ht⟩ :=
            extract_loop_all_append pr rest (extendUnique pr u row) (a ++ [row])
          rw [ht]
          simp
        · exact ih (extendUnique pr u row₀) (a ++ [row₀]) hno row hrest hqrow
    · rcases List.mem_cons.mp hrow with rfl | hrest
      · exact absurd hqrow hq
      · rw [extract_loop_cons_nq pr row₀ rest u a hq] at hno ⊢
        exact ih u a hno row hrest hqrow

end ExtractLemmas

/-- C1, counterexample: with the `[a, c, b, d]` source, limit `N = 2`, and
a checkpoint whose `processed_keys = {a, b}` (in its usual consistent form,
where the completed map also holds `a` and `b`), the batch handed to the
generation step is *empty*, not `[c, d]`: the driver computes
`remaining_limit = max_products - len(updated_products) = 2 - 2 = 0` and
returns before processing anything (lines 530-534). -/
theorem C1_batch_counterexample :
    handed_batch ⟨[("a", "x"), ("b", "y")], ["a", "b"]⟩ (some 2)
        (fun _ => "GEN") acbdRows = [] ∧
    [mkProduct (rowOf "c" "tc" "bc"), mkProduct (rowOf "d" "td" "bd")]
      ≠ ([] : List Product) := by
  decide

/-- C1, amended: the `[c, d]` batch the spec predicts is produced only when
the checkpoint's completed map is empty: with `processed_keys = {a, b}`,
`completed = {}` and `N = 2`, the candidates handed to the generation step
over the `[a, c, b, d]` source are exactly the records built from the `c`
and `d` rows, in that order, for every generation function; in general the
driver hands at most `N - |completed|` candidates, not `N`. -/
theorem C1_batch (gen : Product → String) :
    handed_batch ⟨[], ["a", "b"]⟩ (some 2) gen acbdRows
      = [mkProduct (rowOf "c" "tc" "bc"), mkProduct (rowOf "d" "td" "bd")] := by
  have hread : (read_csv acbdRows ["a", "b"]).1
      = [mkProduct (rowOf "c" "tc" "bc"), mkProduct (rowOf "d" "td" "bd")] := by
    decide
  have hslice : products_to_process ⟨[], ["a", "b"]⟩ (some 2)
      [mkProduct (rowOf "c" "tc" "bc"), mkProduct (rowOf "d" "td" "bd")]
      = [mkProduct (rowOf "c" "tc" "bc"), mkProduct (rowOf "d" "td" "bd")] := by
    decide
  have hc : (mkProduct (rowOf "c" "tc" "bc")).handle = "c" := by decide
  have hd : (mkProduct (rowOf "d" "td" "bd")).handle = "d" := by decide
  show update_loop_handed gen
      (products_to_process ⟨[], ["a", "b"]⟩ (some 2) (read_csv acbdRows ["a", "b"]).1)
      [] = _
  rw [hread, hslice, update_loop_handed, hc]
  have h1 : (List.lookup "c" ([] : List (String × String))).isSome = false := rfl
  rw [h1]
  simp only [Bool.false_eq_true, if_false]
  rw [update_loop_handed, hd]
  have h2 : (List.lookup "d" (dictInsert [] "c" (gen (mkProduct (rowOf "c" "tc" "bc"))))).isSome
      = false := by
    have : dictInsert ([] : List (String × String)) "c"
        (gen (mkProduct (rowOf "c" "tc" "bc")))
        = [("c", gen (mkProduct (rowOf "c" "tc" "bc")))] := rfl
    rw [this, lookup_cons_ne _ _ _ _ (by decide)]
    rfl
  rw [h2]
  simp only [Bool.false_eq_true, if_false]
  rw [update_loop_handed]

/-- C2, counterexample: the Catalog Reader is *not* side-effect-free on the
Checkpoint Store state — reading a one-row catalog from the empty state
changes the in-memory `processed_handles` set (line 165 of `read_csv`). -/
theorem C2_reader_counterexample :
    (read_csv_session ⟨[], []⟩ [rowOf "a" "ta" "ba"]).1 ≠ (⟨[], []⟩ : CheckpointData) := by
  decide

/-- C2, amended: the Catalog Reader never touches the completed map, but it
adds exactly the emitted records' keys to the in-memory `processed_keys`
set (its in-pass dedup mechanism): afterwards a key is in `processed_keys`
iff it was there before or it is the key of an emitted record. -/
theorem C2_reader_effect (d : CheckpointData) (rows : List Row) :
    (read_csv_session d rows).1.updated_products = d.updated_products ∧
    ∀ h, h ∈ (read_csv_session d rows).1.processed_handles ↔
      h ∈ d.processed_handles ∨
        h ∈ (read_csv_session d rows).2.map Product.handle := by
  refine ⟨rfl, fun h => ?_⟩
  exact read_csv_mem_processed rows d.processed_handles h

/-- C5, counterexample: checkpoint persistence is *not* crash-atomic.
`save_progress` overwrites the progress file in place, so a crash at the
very start of the persist that follows `record("b", "y")` (zero tokens
written, old content already truncated) makes the subsequent `load()`
return the empty state — which is neither the pre-`record` state
`{completed = {a ↦ x}, processed = {a}}` nor the post-`record` state. -/
theorem C5_crash_counterexample :
    load_progress (crashedFile (recordMem "b" "y" ⟨[("a", "x")], ["a"]⟩) 0)
        ≠ (⟨[("a", "x")], ["a"]⟩ : CheckpointData) ∧
    load_progress (crashedFile (recordMem "b" "y" ⟨[("a", "x")], ["a"]⟩) 0)
        ≠ recordMem "b" "y" ⟨[("a", "x")], ["a"]⟩ := by
  decide

/-- C5, amended: if the process dies at any point during the persist that
follows `record(k, v)`, a subsequent `load()` yields either the exact
post-`record` state (the write completed) or the *empty* state (the write
was partial: the in-place overwrite truncated the old checkpoint first, so
the pre-`record` durable state is destroyed and the truncated blob fails
to unpickle, which `load_progress` converts to the empty fallback; it
never raises). -/
theorem C5_crash_recovery (d : CheckpointData) (k v : String) (i : Nat) :
    load_progress (crashedFile (recordMem k v d) i) = recordMem k v d ∨
    load_progress (crashedFile (recordMem k v d) i) = emptyCheckpoint := by
  by_cases hlen : (serializeCheckpoint (recordMem k v d)).length ≤ i
  · left
    rw [crashedFile, List.take_of_length_le hlen, load_progress, parse_serialize]
  · right
    rw [crashedFile, load_progress,
      parse_serialize_take_lt _ i (Nat.lt_of_not_le hlen)]

/-- C7: the repair pass of `fix_progress_and_extract` sets
`processed_handles` to exactly the key set of `updated_products` (keeping
the completed map itself unchanged), persists the repaired state, and is
idempotent both on the in-memory state and as a whole run over the durable
file. -/
theorem C7_reconcile (d : CheckpointData) :
    (fix_progress d).updated_products = d.updated_products ∧
    (∀ h, h ∈ (fix_progress d).processed_handles ↔
      (List.lookup h d.updated_products).isSome = true) ∧
    fix_progress (fix_progress d) = fix_progress d ∧
    fix_progress_run ⟨d, some (serializeCheckpoint d)⟩
      = some ⟨fix_progress d, some (serializeCheckpoint (fix_progress d))⟩ ∧
    fix_progress_run ⟨fix_progress d, some (serializeCheckpoint (fix_progress d))⟩
      = some ⟨fix_progress d, some (serializeCheckpoint (fix_progress d))⟩ := by
  refine ⟨rfl, fun h => (lookup_isSome_iff_mem_keys d.updated_products h).symm,
    rfl, ?_, ?_⟩
  · simp [fix_progress_run, parse_serialize]
  · simp [fix_progress_run, parse_serialize]
    exact ⟨rfl, rfl⟩

/-- C8: `record(key, content)` overwrites `completed[key] = content`,
leaves every other key's entry unchanged, inserts `key` into
`processed_keys` (keeping all previous members), immediately persists the
full state to the progress file, and repeated records for the same key are
safe with the last write winning. -/
theorem C8_record (w : World) (k v : String) :
    List.lookup k (record k v w).mem.updated_products = some v ∧
    (∀ k', k' ≠ k →
      List.lookup k' (record k v w).mem.updated_products
        = List.lookup k' w.mem.updated_products) ∧
    k ∈ (record k v w).mem.processed_handles ∧
    (∀ h', h' ∈ w.mem.processed_handles →
      h' ∈ (record k v w).mem.processed_handles) ∧
    (record k v w).file = some (serializeCheckpoint (record k v w).mem) ∧
    (∀ v₁, record k v (record k v₁ w) = record k v w) := by
  refine ⟨lookup_dictInsert_self _ _ _,
    fun k' h => lookup_dictInsert_ne _ _ _ _ h,
    mem_setAdd_self,
    fun h' hmem => setAdd_subset hmem,
    rfl,
    fun v₁ => ?_⟩
  have hmem : recordMem k v (recordMem k v₁ w.mem) = recordMem k v w.mem := by
    rw [recordMem, recordMem, recordMem]
    rw [dictInsert_dictInsert, setAdd_idem]
  show save_progress ⟨recordMem k v (recordMem k v₁ w.mem), _⟩
      = save_progress ⟨recordMem k v w.mem, _⟩
  rw [save_progress, save_progress, hmem]

/-- C9: for every catalog source and processed set, the Catalog Reader's
output has pairwise-distinct keys, and each emitted record is built from
the first field-qualifying source row bearing its key (which is not an
already-processed key). -/
theorem C9_reader_unique (rows : List Row) (pr : List String) :
    ((read_csv rows pr).1.map Product.handle).Nodup ∧
    ∀ prod ∈ (read_csv rows pr).1, ∃ pre row post,
      rows = pre ++ row :: post ∧ fieldQual row ∧ rowHandle row ∉ pr ∧
      prod = mkProduct row ∧
      ∀ r' ∈ pre, rowHandle r' = rowHandle row → ¬ fieldQual r' :=
  ⟨read_csv_handles_nodup rows pr,
   fun prod h => read_csv_first_qualifying rows pr prod h⟩

/-- C9 witness: on a catalog whose two rows share handle `a`, the reader
output is duplicate-free and the emitted record decomposes as coming from
the first qualifying `a`-row. -/
theorem C9_reader_unique_witness :
    ((read_csv [rowOf "a" "t" "b", rowOf "a" "t2" "b2"] []).1.map Product.handle).Nodup ∧
    (∃ pre row post,
      [rowOf "a" "t" "b", rowOf "a" "t2" "b2"] = pre ++ row :: post ∧
      fieldQual row ∧ rowHandle row ∉ ([] : List String) ∧
      mkProduct (rowOf "a" "t" "b") = mkProduct row ∧
      ∀ r' ∈ pre, rowHandle r' = rowHandle row → ¬ fieldQual r') :=
  ⟨(C9_reader_unique [rowOf "a" "t" "b", rowOf "a" "t2" "b2"] []).1,
   (C9_reader_unique [rowOf "a" "t" "b", rowOf "a" "t2" "b2"] []).2
     (mkProduct (rowOf "a" "t" "b")) (by decide)⟩

/-- C6: with a finite operator limit the catalog scan is insensitive to
everything after the row that completes the limit: (a) the extraction
scripts' scan literally stops — once a prefix has produced the 10 unique
products, appending any suffix to the source leaves the scan result
unchanged; (b) the updater's candidate slice of up to `n` reader products
is already determined by the source prefix that yields its `n`-th
qualifying record. -/
theorem C6_early_stop :
    (∀ (pr : List String) (p q : List Row),
      10 ≤ (extract_loop pr p [] []).1.length →
      extract_loop pr (p ++ q) [] [] = extract_loop pr p [] []) ∧
    (∀ (pr : List String) (p q : List Row) (n : Nat),
      n ≤ (read_csv p pr).1.length →
      ((read_csv (p ++ q) pr).1).take n = ((read_csv p pr).1).take n) := by
  constructor
  · intro pr p q hbr
    exact extract_loop_break_suffix pr p q [] [] (by simp) hbr
  · intro pr p q n hn
    rw [read_csv_append]
    rw [List.take_append_eq_append_take, Nat.sub_eq_zero_of_le hn,
      List.take_zero, List.append_nil]

/-- C6 witness: ten qualifying rows saturate the extraction scan, so an
eleventh row is ignored; and the first four reader products of the
`[a, c, b, d]` catalog ignore an appended fifth row. -/
theorem C6_early_stop_witness :
    extract_loop [] (tenRows ++ [rowOf "h11" "t11" "b11"]) [] []
      = extract_loop [] tenRows [] [] ∧
    ((read_csv (acbdRows ++ [rowOf "e" "te" "be"]) []).1).take 4
      = ((read_csv acbdRows []).1).take 4 :=
  ⟨C6_early_stop.1 [] tenRows [rowOf "h11" "t11" "b11"] (by decide),
   C6_early_stop.2 [] acbdRows [rowOf "e" "te" "be"] 4 (by decide)⟩

/-- C10: when the scan of a source prefix `p` has collected 9 unique
products and the next row `r` is a qualifying, new, unprocessed product
(the 10th), the extraction scripts stop there: the extracted output over
`p ++ r :: q` equals the output over `p ++ [r]` for *any* suffix `q` — in
particular every later row sharing the 10th product's handle (its variant
rows) is omitted — while every qualifying row of `p` whose handle belongs
to a selected product is included in the output. -/
theorem C10_stop_at_tenth (pr : List String) (p : List Row) (r : Row) (q : List Row)
    (h9 : (extract_loop pr p [] []).1.length = 9)
    (hq : fieldQual r)
    (hnew : rowHandle r ∉ (extract_loop pr p [] []).1.map Prod.fst)
    (hnp : rowHandle r ∉ pr) :
    extract_output pr (p ++ r :: q) = extract_output pr (p ++ [r]) ∧
    ∀ row ∈ p, fieldQual row →
      rowHandle row ∈ (extract_loop pr (p ++ [r]) [] []).1.map Prod.fst →
      row ∈ extract_output pr (p ++ r :: q) := by
  have hno : (extract_loop pr p [] []).1.length < 10 := by
    rw [h9]
    exact Nat.lt_succ_self 9
  have hext : extendUnique pr (extract_loop pr p [] []).1 r
      = (extract_loop pr p [] []).1 ++ [(rowHandle r, r)] := by
    rw [extendUnique, if_pos ⟨hnew, hnp⟩]
  have hlen10 : 10 ≤ (extendUnique pr (extract_loop pr p [] []).1 r).length := by
    rw [hext, List.length_append, h9]
    exact Nat.le_refl 10
  have hscan1 : extract_loop pr (p ++ [r]) [] []
      = ((extract_loop pr p [] []).1 ++ [(rowHandle r, r)],
         (extract_loop pr p [] []).2 ++ [r]) := by
    rw [extract_loop_no_break_append pr p [r] [] [] hno,
      extract_loop_cons_break pr r [] _ _ hq hlen10, hext]
  have hscan2 : extract_loop pr (p ++ r :: q) [] []
      = ((extract_loop pr p [] []).1 ++ [(rowHandle r, r)],
         (extract_loop pr p [] []).2 ++ [r]) := by
    rw [extract_loop_no_break_append pr p (r :: q) [] [] hno,
      extract_loop_cons_break pr r q _ _ hq hlen10, hext]
  constructor
  · rw [extract_output, extract_output, hscan1, hscan2]
  · intro row hrow hqrow hhand
    rw [extract_output, hscan2]
    apply List.mem_filter.mpr
    refine ⟨List.mem_append_left _
      (extract_loop_all_mem pr p [] [] hno row hrow hqrow), ?_⟩
    rw [hscan1] at hhand
    simpa using hhand

/-- C10 witness: with nine unique products scanned, the tenth product's
later variant row is dropped from the extraction while the first product's
row stays in. -/
theorem C10_stop_at_tenth_witness :
    extract_output [] (nineRows ++ rowOf "h10" "t10" "b10" :: [rowOf "h10" "tv" "bv"])
      = extract_output [] (nineRows ++ [rowOf "h10" "t10" "b10"]) ∧
    rowOf "h1" "t1" "b1"
      ∈ extract_output [] (nineRows ++ rowOf "h10" "t10" "b10" :: [rowOf "h10" "tv" "bv"]) := by
  have h := C10_stop_at_tenth [] nineRows (rowOf "h10" "t10" "b10")
    [rowOf "h10" "tv" "bv"] (by decide) (by decide) (by decide) (by decide)
  exact ⟨h.1, h.2 (rowOf "h1" "t1" "b1") (by decide) (by decide) (by decide)⟩

/-- C3, counterexample: when the external generation call fails for a
candidate, the Batch Driver does *not* leave the checkpoint untouched —
`generate_openai_description` swallows the failure and returns the
fallback description (lines 450-452), which the loop then records: both
the completed map and `processed_keys` gain the candidate's key. -/
theorem C3_failure_counterexample :
    List.lookup "p1"
        (update_product_descriptions
          (generate_openai_description (fun _ => none) id (fun _ => "FALLBACK"))
          none [mkProduct (rowOf "p1" "t1" "b1")]
          ⟨emptyCheckpoint, none⟩).mem.updated_products
      = some "FALLBACK" ∧
    "p1" ∈ (update_product_descriptions
          (generate_openai_description (fun _ => none) id (fun _ => "FALLBACK"))
          none [mkProduct (rowOf "p1" "t1" "b1")]
          ⟨emptyCheckpoint, none⟩).mem.processed_handles := by
  decide

/-- C3, amended: a per-item generation failure never aborts the loop, but
nothing is "skipped without recording": the failure is caught inside
`generate_openai_description`, which returns the fallback description, and
the driver records that fallback for the candidate's key — the completed
map maps the key to the fallback content, `processed_keys` gains the key,
the state is persisted — before advancing to the remaining candidates. -/
theorem C3_failure_records_fallback (apiCall : Product → Option String)
    (cleanHtml : String → String) (fallback : Product → String)
    (w : World) (p : Product) (ps : List Product)
    (hnew : List.lookup p.handle w.mem.updated_products = none)
    (hfail : apiCall p = none) :
    update_loop (generate_openai_description apiCall cleanHtml fallback) (p :: ps) w
      = update_loop (generate_openai_description apiCall cleanHtml fallback) ps
          (record p.handle (fallback p) w) ∧
    List.lookup p.handle
        (record p.handle (fallback p) w).mem.updated_products
      = some (fallback p) ∧
    p.handle ∈ (record p.handle (fallback p) w).mem.processed_handles ∧
    (record p.handle (fallback p) w).file
      = some (serializeCheckpoint (record p.handle (fallback p) w).mem) := by
  refine ⟨?_, lookup_dictInsert_self _ _ _, mem_setAdd_self, rfl⟩
  rw [update_loop, hnew]
  simp only [Option.isSome_none, Bool.false_eq_true, if_false]
  rw [generate_openai_description, hfail]

/-- C3 witness: the failure path at a concrete candidate and state. -/
theorem C3_failure_records_fallback_witness :
    update_loop
        (generate_openai_description (fun _ => none) id (fun _ => "FB"))
        [mkProduct (rowOf "p1" "t1" "b1")] ⟨emptyCheckpoint, none⟩
      = update_loop
          (generate_openai_description (fun _ => none) id (fun _ => "FB"))
          []
          (record (mkProduct (rowOf "p1" "t1" "b1")).handle "FB"
            ⟨emptyCheckpoint, none⟩) ∧
    List.lookup (mkProduct (rowOf "p1" "t1" "b1")).handle
        (record (mkProduct (rowOf "p1" "t1" "b1")).handle "FB"
          ⟨emptyCheckpoint, none⟩).mem.updated_products = some "FB" ∧
    (mkProduct (rowOf "p1" "t1" "b1")).handle
      ∈ (record (mkProduct (rowOf "p1" "t1" "b1")).handle "FB"
          ⟨emptyCheckpoint, none⟩).mem.processed_handles ∧
    (record (mkProduct (rowOf "p1" "t1" "b1")).handle "FB"
        ⟨emptyCheckpoint, none⟩).file
      = some (serializeCheckpoint
          (record (mkProduct (rowOf "p1" "t1" "b1")).handle "FB"
            ⟨emptyCheckpoint, none⟩).mem) :=
  C3_failure_records_fallback (fun _ => none) id (fun _ => "FB")
    ⟨emptyCheckpoint, none⟩ (mkProduct (rowOf "p1" "t1" "b1")) []
    (by decide) rfl

/-- C4, counterexample: a row whose key *is* in the completed map but whose
title column is empty (a variant row) is emitted unchanged — its
description is not replaced by the generated content. -/
theorem C4_writer_counterexample :
    write_updated_csv [("k", "new")]
        [[("Handle", "k"), ("Title", ""), ("Body (HTML)", "old")]]
      = [[("Handle", "k"), ("Title", ""), ("Body (HTML)", "old")]] ∧
    rowGet [("Handle", "k"), ("Title", ""), ("Body (HTML)", "old")] "Body (HTML)"
      ≠ "new" := by
  decide

/-- C4, amended: the writer emits one output row per input row in order;
a row whose stripped key is in the completed map *and* whose stripped
title and description are non-empty has its description column replaced by
the generated content with its other columns and column set untouched;
every other row — in particular a completed-key row with an empty title or
description (a variant row) — is emitted identical to the input. -/
theorem C4_writer (updated : List (String × String)) (rows : List Row) :
    (write_updated_csv updated rows).length = rows.length ∧
    ∀ r o, (r, o) ∈ rows.zip (write_updated_csv updated rows) →
      (∀ v, List.lookup (rowHandle r) updated = some v →
        rowTitle r ≠ "" → rowBody r ≠ "" →
        rowGet o "Body (HTML)" = v ∧
        (∀ c, c ≠ "Body (HTML)" → rowGet o c = rowGet r c) ∧
        o.map Prod.fst = r.map Prod.fst) ∧
      ((List.lookup (rowHandle r) updated = none ∨
          rowTitle r = "" ∨ rowBody r = "") → o = r) := by
  constructor
  · exact List.length_map rows _
  · intro r o hmem
    have ho : o = write_row updated r := by
      rw [write_updated_csv] at hmem
      induction rows with
      | nil => simp at hmem
      | cons x xs ih =>
        rw [List.map_cons, List.zip_cons_cons] at hmem
        rcases List.mem_cons.mp hmem with heq | htail
        · obtain ⟨h1, h2⟩ := Prod.mk.injEq .. ▸ heq
          rw [Prod.mk.injEq] at heq
          rw [heq.2, heq.1]
        · exact ih htail
    constructor
    · intro v hv ht hb
      have hrow : write_row updated r = setCol r "Body (HTML)" v := by
        rw [write_row, hv]
        show (if rowTitle r ≠ "" ∧ rowBody r ≠ "" then setCol r "Body (HTML)" v else r)
          = setCol r "Body (HTML)" v
        rw [if_pos ⟨ht, hb⟩]
      rw [ho, hrow, setCol_eq_dictInsert]
      refine ⟨?_, ?_, ?_⟩
      · rw [rowGet, lookup_dictInsert_self]
        rfl
      · intro c hc
        rw [rowGet, rowGet, lookup_dictInsert_ne _ _ _ _ hc]
      · exact dictInsert_map_fst_of_mem r "Body (HTML)" v
          (rowGet_ne_empty_mem_keys r "Body (HTML)" hb)
    · intro hcase
      rw [ho, write_row]
      rcases hcase with hnone | ht | hb
      · rw [hnone]
      · cases hv : List.lookup (rowHandle r) updated with
        | none => rfl
        | some v =>
          show (if rowTitle r ≠ "" ∧ rowBody r ≠ "" then setCol r "Body (HTML)" v else r) = r
          rw [if_neg]
          intro hcontra
          exact hcontra.1 ht
      · cases hv : List.lookup (rowHandle r) updated with
        | none => rfl
        | some v =>
          show (if rowTitle r ≠ "" ∧ rowBody r ≠ "" then setCol r "Body (HTML)" v else r) = r
          rw [if_neg]
          intro hcontra
          exact hcontra.2 hb

/-- C4 witness: the writer contract at a concrete product row. -/
theorem C4_writer_witness :
    (write_updated_csv [("k", "new")] [rowOf "k" "t" "old"]).length
      = [rowOf "k" "t" "old"].length ∧
    rowGet (write_row [("k", "new")] (rowOf "k" "t" "old")) "Body (HTML)" = "new" ∧
    rowGet (write_row [("k", "new")] (rowOf "k" "t" "old")) "Vendor"
      = rowGet (rowOf "k" "t" "old") "Vendor" ∧
    (write_row [("k", "new")] (rowOf "k" "t" "old")).map Prod.fst
      = (rowOf "k" "t" "old").map Prod.fst := by
  have h := C4_writer [("k", "new")] [rowOf "k" "t" "old"]
  have hmem : (rowOf "k" "t" "old", write_row [("k", "new")] (rowOf "k" "t" "old"))
      ∈ [rowOf "k" "t" "old"].zip
          (write_updated_csv [("k", "new")] [rowOf "k" "t" "old"]) := by
    decide
  have h2 := (h.2 _ _ hmem).1 "new" (by decide) (by decide) (by decide)
  exact ⟨h.1, h2.1, h2.2.1 "Vendor" (by decide), h2.2.2⟩

/-- C8 witness: the `record` contract at a concrete state. -/
theorem C8_record_witness :
    List.lookup "a"
        (record "a" "x" ⟨⟨[("b", "y")], ["b"]⟩, none⟩).mem.updated_products = some "x" ∧
    List.lookup "b"
        (record "a" "x" ⟨⟨[("b", "y")], ["b"]⟩, none⟩).mem.updated_products
      = List.lookup "b" [("b", "y")] ∧
    "a" ∈ (record "a" "x" ⟨⟨[("b", "y")], ["b"]⟩, none⟩).mem.processed_handles ∧
    "b" ∈ (record "a" "x" ⟨⟨[("b", "y")], ["b"]⟩, none⟩).mem.processed_handles ∧
    (record "a" "x" ⟨⟨[("b", "y")], ["b"]⟩, none⟩).file
      = some (serializeCheckpoint
          (record "a" "x" ⟨⟨[("b", "y")], ["b"]⟩, none⟩).mem) ∧
    record "a" "x" (record "a" "z" ⟨⟨[("b", "y")], ["b"]⟩, none⟩)
      = record "a" "x" ⟨⟨[("b", "y")], ["b"]⟩, none⟩ := by
  have h := C8_record ⟨⟨[("b", "y")], ["b"]⟩, none⟩ "a" "x"
  exact ⟨h.1, h.2.1 "b" (by decide), h.2.2.1, h.2.2.2.1 "b" (by decide),
    h.2.2.2.2.1, h.2.2.2.2.2 "z"⟩

end ShopifyUpd
